import Mathlib

/-!
Verification of the quantum sampling engine of the atoms-visualizer
repository.  The Rust source is shallowly embedded: `f32` arithmetic is
modelled by real arithmetic, `u64` integer arithmetic by natural numbers
reduced modulo `2^64` at each multiplication (matching release-mode
wrapping), and the thread-local random number generator by an explicit
stream of pre-drawn reals.  Loops that the source bounds by an attempt
budget are translated structurally on that budget; the one unbounded
`loop {}` (the angular rejection loop inside the superposition samplers)
is given an explicit fuel parameter and returns `none` when the fuel is
exhausted, modelling divergence.
-/

namespace Atoms

noncomputable section

open Real

/-- `QuantumNumbers` from src/physics.rs: the triple `(n, l, m_l)`. -/
structure QuantumNumbers where
  n : ℕ
  l : ℕ
  m_l : ℤ
deriving DecidableEq, Repr

/-- `AngularBasis` from src/physics.rs. -/
inductive AngularBasis where
  | Complex
  | Real
deriving DecidableEq, Repr

/-- `RadialKind` from src/bin/web.rs. -/
inductive RadialKind where
  | R
  | Chi
deriving DecidableEq, Repr

/-- `LdaOrbital` as used by `generate_superposition_samples_lda`
(src/bin/web.rs): only the fields the sampler reads are modelled. -/
structure LdaOrbital where
  radial_r : List ℝ
  radial_rfn : List ℝ
  l : ℕ

/-- `WeightedOrbital` from src/bin/web.rs. -/
structure WeightedOrbital where
  radial_r : List ℝ
  radial_val : List ℝ
  weight : ℝ

/-- `rand::thread_rng()` modelled as a fixed stream of pre-drawn reals
(each `rng.gen::<f32>()` is one element of the stream, in order). -/
structure Rng where
  stream : ℕ → ℝ
  pos : ℕ

/-- One draw: `rng.gen::<f32>()`. -/
def Rng.next (g : Rng) : ℝ × Rng := (g.stream g.pos, ⟨g.stream, g.pos + 1⟩)

/-- The `u32 → i32` cast in `l as i32`: values at or above `2^31` wrap to
negatives (two's-complement reinterpretation). -/
def u32_as_i32 (l : ℕ) : ℤ :=
  if l < 2 ^ 31 then (l : ℤ) else (l : ℤ) - 2 ^ 32

/-- Release-mode `i32::abs`: `i32::MIN.abs()` wraps back to `i32::MIN`
(debug builds panic there). -/
def i32_wrapping_abs (m : ℤ) : ℤ :=
  if m = -(2 ^ 31) then -(2 ^ 31) else |m|

/-- `QuantumNumbers::new`: validating factory, `None` on violation
(`n == 0 || l >= n || m_l.abs() > l as i32`), with the `u32 → i32` cast
of `l` and the wrapping `i32` absolute value modelled explicitly. -/
def QuantumNumbers.new (n l : ℕ) (m_l : ℤ) : Option QuantumNumbers :=
  if n = 0 ∨ n ≤ l ∨ u32_as_i32 l < i32_wrapping_abs m_l then none
  else some ⟨n, l, m_l⟩

/-- `factorial` from src/physics.rs: `(1..=n as u64).product()`.
The product is accumulated in a `u64`, so every multiplication wraps
modulo `2^64` (release-mode semantics). -/
def factorial : ℕ → ℕ
  | 0 => 1
  | n + 1 => (factorial n * (n + 1)) % 2 ^ 64

/-- `factorial_double` from src/physics.rs: `n!! = n·(n−2)·…` accumulated
in a `u64`, wrapping modulo `2^64`. -/
def factorial_double : ℕ → ℕ
  | 0 => 1
  | 1 => 1
  | n + 2 => ((n + 2) * factorial_double n) % 2 ^ 64

/-- `legendre_polynomial` from src/physics.rs: Bonnet three-term
recurrence with base cases `P_0 = 1`, `P_1 = x`. -/
def legendre_polynomial (x : ℝ) (n : ℕ) : ℝ :=
  if n = 0 then 1
  else if n = 1 then x
  else
    ((List.range (n - 1)).foldl (fun st k =>
      let i : ℝ := (k : ℝ) + 2
      (st.2, ((2 * i - 1) * x * st.2 - (i - 1) * st.1) / i)) ((1 : ℝ), x)).2

/-- `associated_legendre` from src/physics.rs: seeded by the closed form
for `P_m^m` (with the Condon–Shortley sign), raised to degree `n` by the
upward recurrence; returns 0 when `m > n`. -/
def associated_legendre (x : ℝ) (n m : ℕ) : ℝ :=
  if m > n then 0
  else if m = 0 then legendre_polynomial x n
  else
    let sign : ℝ := if m % 2 = 0 then 1 else -1
    let pmm := sign * (1 - x * x) ^ ((m : ℝ) / 2) * (factorial_double (2 * m - 1) : ℝ)
    if n = m then pmm
    else
      let pm1m := x * (2 * (m : ℝ) + 1) * pmm
      if n = m + 1 then pm1m
      else
        ((List.range (n - m - 1)).foldl (fun st k =>
          let i : ℝ := (m : ℝ) + 2 + (k : ℝ)
          (st.2, ((2 * i - 1) * x * st.2 - (i + (m : ℝ) - 1) * st.1) / (i - (m : ℝ))))
          (pmm, pm1m)).2

/-- `laguerre_polynomial` from src/physics.rs: generalized Laguerre
`L^α_n`, three-term recurrence, base cases `L_0 = 1`, `L_1 = 1 + α − x`. -/
def laguerre_polynomial (x : ℝ) (n alpha : ℕ) : ℝ :=
  if n = 0 then 1
  else
    let l1 := 1 + (alpha : ℝ) - x
    if n = 1 then l1
    else
      ((List.range (n - 1)).foldl (fun st k =>
        let i : ℝ := (k : ℝ) + 2
        (st.2, ((2 * i - 1 + (alpha : ℝ) - x) * st.2 - (i - 1 + (alpha : ℝ)) * st.1) / i))
        ((1 : ℝ), l1)).2

/-- `radial_wavefunction` from src/physics.rs: hydrogenic `R_nl(r)` in
Bohr-radius units (`BOHR_RADIUS = 1`). -/
def radial_wavefunction (r : ℝ) (n l : ℕ) : ℝ :=
  if r < 0 then 0
  else
    let rho := 2 * r / ((n : ℝ) * 1)
    if rho < 0 then 0
    else
      let norm0 := (2 / ((n : ℝ) * 1)) ^ (1.5 : ℝ)
      let norm := norm0 *
        Real.sqrt ((factorial (n - l - 1) : ℝ) / (2 * (n : ℝ) * (factorial (n + l) : ℝ)))
      let exp_part := Real.exp (-rho / 2)
      let poly := laguerre_polynomial rho (n - l - 1) (2 * l + 1)
      let rho_power := rho ^ ((l : ℝ))
      norm * rho_power * exp_part * poly

/-- `spherical_harmonic` from src/physics.rs: complex `Y_lm(θ, φ)` as a
`(re, im)` pair. -/
def spherical_harmonic (theta phi : ℝ) (l : ℕ) (m_l : ℤ) : ℝ × ℝ :=
  let m_abs : ℕ := m_l.natAbs
  let cos_theta := Real.cos theta
  let leg := associated_legendre cos_theta l m_abs
  let norm := Real.sqrt ((2 * (l : ℝ) + 1) / (4 * π)) *
    Real.sqrt ((factorial (l - m_abs) : ℝ) / (factorial (l + m_abs) : ℝ))
  let phase := (m_abs : ℝ) * phi
  let s := Real.sin phase
  let c := Real.cos phase
  let base_re := norm * leg * c
  let base_im := norm * leg * s
  if 0 ≤ m_l then
    let cs : ℝ := if m_abs % 2 = 0 then 1 else -1
    (cs * base_re, cs * base_im)
  else
    let sign : ℝ := if m_abs % 2 = 0 then 1 else -1
    (sign * base_re, -(sign * base_im))

/-- `real_spherical_harmonic` from src/physics.rs: chemistry-style real
basis (cos-like for `m > 0`, sin-like for `m < 0`, `Y_l0` for `m = 0`). -/
def real_spherical_harmonic (theta phi : ℝ) (l : ℕ) (m_l : ℤ) : ℝ :=
  if m_l = 0 then (spherical_harmonic theta phi l 0).1
  else
    let p := spherical_harmonic theta phi l (m_l.natAbs : ℤ)
    let scale := Real.sqrt 2
    if 0 < m_l then scale * p.1 else scale * p.2

/-- `angular_wavefunction` from src/physics.rs: `|Y_lm(θ, φ)|`. -/
def angular_wavefunction (theta phi : ℝ) (l : ℕ) (m_l : ℤ) : ℝ :=
  let p := spherical_harmonic theta phi l m_l
  Real.sqrt (p.1 * p.1 + p.2 * p.2)

/-- `angular_wavefunction_basis` from src/physics.rs. -/
def angular_wavefunction_basis (theta phi : ℝ) (l : ℕ) (m_l : ℤ)
    (basis : AngularBasis) : ℝ :=
  match basis with
  | AngularBasis.Complex => angular_wavefunction theta phi l m_l
  | AngularBasis.Real => |real_spherical_harmonic theta phi l m_l|

/-- `probability_density` from src/physics.rs: analytic `|ψ|²`. -/
def probability_density (r theta phi : ℝ) (qn : QuantumNumbers) : ℝ :=
  let radial := radial_wavefunction r qn.n qn.l
  let angular := angular_wavefunction theta phi qn.l qn.m_l
  (radial * angular) * (radial * angular)

/-- `probability_density_basis` from src/physics.rs. -/
def probability_density_basis (r theta phi : ℝ) (qn : QuantumNumbers)
    (basis : AngularBasis) : ℝ :=
  let radial := radial_wavefunction r qn.n qn.l
  let angular := angular_wavefunction_basis theta phi qn.l qn.m_l basis
  (radial * angular) * (radial * angular)

/-- `hydrogenic_energy` from src/bin/web.rs: `E_n = −0.5/n²` (a.u.). -/
def hydrogenic_energy (n : ℕ) : ℝ :=
  -0.5 / ((n : ℝ) * (n : ℝ))

/-- `find_max_probability` from src/physics.rs: coarse 100×20 `(r, θ)`
grid scan at `φ = 0` with quadratic `r` spacing, an explicit probe near
the nucleus, and a `1e-30` division guard. -/
def find_max_probability (qn : QuantumNumbers) (max_radius : ℝ) : ℝ :=
  let r_steps : ℕ := 100
  let theta_steps : ℕ := 20
  let m := (List.range r_steps).foldl (fun acc i =>
    let t := ((i : ℝ) + 1) / (r_steps : ℝ)
    let r := max_radius * t * t
    (List.range theta_steps).foldl (fun acc2 j =>
      let theta := ((j : ℝ) + 0.5) / (theta_steps : ℝ) * π
      let prob := probability_density r theta 0 qn
      if prob > acc2 then prob else acc2) acc) 0
  let near_nucleus := probability_density (max_radius * 1e-4) (π / 2) 0 qn
  max (max m near_nucleus) 1e-30

/-- The rejection loop of `generate_orbital_samples` (src/physics.rs),
run on the explicit attempt budget.  The second component counts the
attempts actually performed. -/
def generate_orbital_samples_loop (qn : QuantumNumbers)
    (max_radius max_prob : ℝ) (num_samples : ℕ) :
    ℕ → Rng → List (ℝ × ℝ × ℝ) → List (ℝ × ℝ × ℝ) × ℕ
  | 0, _, acc => (acc, 0)
  | fuel + 1, g, acc =>
    if acc.length < num_samples then
      let u1 := g.next
      let r := max_radius * u1.1 ^ ((1 : ℝ) / 3)
      let u2 := u1.2.next
      let cos_theta := u2.1 * 2 - 1
      let theta := Real.arccos cos_theta
      let u3 := u2.2.next
      let phi := u3.1 * (2 * π)
      let prob_density := probability_density r theta phi qn
      let u4 := u3.2.next
      if u4.1 < prob_density / max_prob then
        let x := r * Real.sin theta * Real.cos phi
        let y := r * Real.sin theta * Real.sin phi
        let z := r * Real.cos theta
        let res := generate_orbital_samples_loop qn max_radius max_prob num_samples
          fuel u4.2 (acc ++ [(x, y, z)])
        (res.1, res.2 + 1)
      else
        let res := generate_orbital_samples_loop qn max_radius max_prob num_samples
          fuel u4.2 acc
        (res.1, res.2 + 1)
    else (acc, 0)

/-- `generate_orbital_samples` from src/physics.rs: rejection sampling in
a ball of radius `max_radius` with attempt budget `num_samples * 100`.
Returns the accepted samples and the number of attempts performed. -/
def generate_orbital_samples (qn : QuantumNumbers) (num_samples : ℕ)
    (max_radius : ℝ) (g : Rng) : List (ℝ × ℝ × ℝ) × ℕ :=
  let max_prob := find_max_probability qn max_radius
  generate_orbital_samples_loop qn max_radius max_prob num_samples
    (num_samples * 100) g []

/-- `radial_kind` weight factor in `build_radial_cdf`: `r²` for `R`,
`1` for `Chi`. -/
def radial_weight (kind : RadialKind) (r : ℝ) : ℝ :=
  match kind with
  | RadialKind.R => r * r
  | RadialKind.Chi => 1

/-- One trapezoid of `build_radial_cdf` (src/bin/web.rs): the integrated
weight over `[r0, r1]`, zeroed when the interval end lies beyond
`max_radius`. -/
def seg_area (kind : RadialKind) (max_radius r0 v0 r1 v1 : ℝ) : ℝ :=
  if r1 ≤ max_radius then
    0.5 * (v0 * v0 * radial_weight kind r0 + v1 * v1 * radial_weight kind r1) * (r1 - r0)
  else 0

/-- The per-interval areas accumulated by `build_radial_cdf`'s loop over
`i in 1..rs.len()`, on the zipped `(r, value)` pairs. -/
def radial_cdf_areas (kind : RadialKind) (max_radius : ℝ) :
    List (ℝ × ℝ) → List ℝ
  | [] => []
  | [_] => []
  | (r0, v0) :: (r1, v1) :: rest =>
    seg_area kind max_radius r0 v0 r1 v1 ::
      radial_cdf_areas kind max_radius ((r1, v1) :: rest)

/-- `build_radial_cdf` from src/bin/web.rs: cumulative trapezoidal sums
of the sampling weight, normalized by the total only when the total is
strictly positive. -/
def build_radial_cdf (rs vs : List ℝ) (max_radius : ℝ) (kind : RadialKind) :
    List ℝ :=
  match rs with
  | [] => []
  | _ :: _ =>
    let areas := radial_cdf_areas kind max_radius (rs.zip vs)
    let raw := List.scanl (· + ·) 0 areas
    let total := areas.sum
    if 0 < total then raw.map (fun v => v / total) else raw

/-- Result of Rust `slice::binary_search_by` on a strictly ascending
slice: `(true, i)` models `Ok(i)` (the unique index holding `r`) and
`(false, i)` models `Err(i)` (the insertion point, i.e. the number of
elements strictly below `r`). -/
def binary_search_sorted (xs : List ℝ) (r : ℝ) : Bool × ℕ :=
  let k := xs.countP (fun v => decide (v < r))
  if k < xs.length ∧ xs.getD k 0 = r then (true, k) else (false, k)

/-- The `match { Ok(i) => i, Err(i) => i.min(len - 1) }` pattern shared
by `interp_radial`, `sample_r` and the isotropic mixture sampler. -/
def search_clamp_idx (xs : List ℝ) (r : ℝ) : ℕ :=
  let b := binary_search_sorted xs r
  if b.1 then b.2 else min b.2 (xs.length - 1)

/-- `interp_radial` from src/bin/web.rs: binary search plus linear
interpolation, clamped to the first/last value outside the grid. -/
def interp_radial (r : ℝ) (rs vs : List ℝ) : ℝ :=
  if rs = [] ∨ vs = [] then 0
  else if r ≤ rs.getD 0 0 then vs.getD 0 0
  else if rs.getD (rs.length - 1) 0 ≤ r then vs.getLastD 0
  else
    let idx := search_clamp_idx rs r
    if idx = 0 then vs.getD 0 0
    else
      let r0 := rs.getD (idx - 1) 0
      let r1 := rs.getD idx 0
      let v0 := vs.getD (idx - 1) 0
      let v1 := vs.getD idx 0
      let t := if r0 < r1 then (r - r0) / (r1 - r0) else 0
      v0 + (v1 - v0) * t

/-- `sample_r` from src/bin/web.rs: CDF-inversion radial draw. -/
def sample_r (cdf rs : List ℝ) (g : Rng) : ℝ × Rng :=
  let u := g.next
  let idx := search_clamp_idx cdf u.1
  if idx = 0 then (rs.getD 0 0, u.2)
  else
    let c0 := cdf.getD (idx - 1) 0
    let c1 := cdf.getD idx 0
    let r0 := rs.getD (idx - 1) 0
    let r1 := rs.getD idx 0
    let t := if c0 < c1 then (u.1 - c0) / (c1 - c0) else 0
    (r0 + (r1 - r0) * t, u.2)

/-- `max_angular_prob` from src/bin/web.rs: grid scan over θ (and φ for
the Real basis), clamped below by `1e-8`.  The `f32` finiteness check is
vacuous over ℝ. -/
def max_angular_prob (l : ℕ) (m_l : ℤ) (basis : AngularBasis) : ℝ :=
  let theta_steps : ℕ := 180
  let phi_steps : ℕ := match basis with
    | AngularBasis.Complex => 1
    | AngularBasis.Real => 72
  let m := (List.range theta_steps).foldl (fun acc i =>
    let theta := ((i : ℝ) + 0.5) / (theta_steps : ℝ) * π
    (List.range phi_steps).foldl (fun acc2 j =>
      let phi := ((j : ℝ) + 0.5) / (phi_steps : ℝ) * (2 * π)
      let ang := angular_wavefunction_basis theta phi l m_l basis
      let p := ang * ang
      if p > acc2 then p else acc2) acc) 0
  max m 1e-8

/-- `build_radial_grid` from src/bin/web.rs: `count = max(steps, 2)`
evenly spaced radii from 0 to `max_radius`. -/
def build_radial_grid (max_radius : ℝ) (steps : ℕ) : List ℝ :=
  let count := max steps 2
  (List.range count).map (fun i => max_radius * ((i : ℝ) / ((count - 1 : ℕ) : ℝ)))

/-- `spherical_harmonic_basis` from src/bin/web.rs. -/
def spherical_harmonic_basis (theta phi : ℝ) (l : ℕ) (m_l : ℤ)
    (basis : AngularBasis) : ℝ × ℝ :=
  match basis with
  | AngularBasis.Complex => spherical_harmonic theta phi l m_l
  | AngularBasis.Real => (real_spherical_harmonic theta phi l m_l, 0)

/-- Rust `f32::clamp(x, lo, hi) = min(max(x, lo), hi)`. -/
def rust_clamp (x lo hi : ℝ) : ℝ := min (max x lo) hi

/-- The proposal-mixture density `mix·ψ₁² + (1−mix)·ψ₂²` computed in the
superposition samplers (src/bin/web.rs, `proposal`), with
`ψᵢ² = rᵢ²·|Yᵢ|²`. -/
def super_proposal (mix r1 r2 y1re y1im y2re y2im : ℝ) : ℝ :=
  mix * (r1 * r1 * (y1re * y1re + y1im * y1im)) +
    (1 - mix) * (r2 * r2 * (y2re * y2re + y2im * y2im))

/-- The interference density `|ψ_A + ψ_B|²` computed in the superposition
samplers (src/bin/web.rs, `prob`), with the `e^{−iΔE·t}` phase applied to
`Y_B` as the rotation `(ph_re, ph_im)`. -/
def super_prob (mix r1 r2 y1re y1im y2re y2im ph_re ph_im : ℝ) : ℝ :=
  let a := Real.sqrt mix
  let b := Real.sqrt (1 - mix)
  let psi1_re := a * r1 * y1re
  let psi1_im := a * r1 * y1im
  let y2p_re := y2re * ph_re - y2im * ph_im
  let y2p_im := y2re * ph_im + y2im * ph_re
  let psi2_re := b * r2 * y2p_re
  let psi2_im := b * r2 * y2p_im
  let re := psi1_re + psi2_re
  let im := psi1_im + psi2_im
  re * re + im * im

/-- The acceptance probability of the superposition samplers
(src/bin/web.rs): `1` in amplitude mode, otherwise
`(prob / (2·proposal)).clamp(0, 1)`. -/
def super_accept (with_psi : Bool) (mix r1 r2 y1re y1im y2re y2im ph_re ph_im : ℝ) : ℝ :=
  if with_psi then 1
  else rust_clamp (super_prob mix r1 r2 y1re y1im y2re y2im ph_re ph_im /
    (2 * super_proposal mix r1 r2 y1re y1im y2re y2im)) 0 1

/-- The unbounded `loop {}` of angular rejection inside the superposition
samplers, with explicit fuel (`none` models divergence). -/
def super_theta (l : ℕ) (m_l : ℤ) (basis : AngularBasis) (max_ang phi : ℝ) :
    ℕ → Rng → Option (ℝ × Rng)
  | 0, _ => none
  | fuel + 1, g =>
    let u1 := g.next
    let cos_theta := u1.1 * 2 - 1
    let theta := Real.arccos cos_theta
    let ang := angular_wavefunction_basis theta phi l m_l basis
    let u2 := u1.2.next
    if u2.1 < ang * ang / max_ang then some (theta, u2.2)
    else super_theta l m_l basis max_ang phi fuel u2.2

/-- The common main loop of `generate_superposition_samples_lda` and
`generate_superposition_samples_hydrogenic` (src/bin/web.rs), abstracted
over each orbital's `(l, m, grid, radial values, cdf, angular envelope)`.
Structure mirrors the source: pick a component by `mix`, draw `r` by CDF
inversion, `φ` uniformly and `θ` by rejection, evaluate both amplitudes,
then accept with `super_accept`. -/
def super_core (lA : ℕ) (mA : ℤ) (rsA rfnA cdfA : List ℝ) (max_ang_a : ℝ)
    (lB : ℕ) (mB : ℤ) (rsB rfnB cdfB : List ℝ) (max_ang_b : ℝ)
    (mix ph_re ph_im : ℝ) (with_psi : Bool) (basis : AngularBasis)
    (num_samples inner_fuel : ℕ) :
    ℕ → Rng → List (ℝ × ℝ × ℝ) × List (ℝ × ℝ) × List (ℝ × ℝ) →
      Option (List (ℝ × ℝ × ℝ) × List (ℝ × ℝ) × List (ℝ × ℝ))
  | 0, _, acc => some acc
  | fuel + 1, g, acc =>
    if acc.1.length < num_samples then
      let u := g.next
      let drawn : Option (ℝ × ℝ × ℝ × Rng) :=
        if u.1 < mix then
          let rr := sample_r cdfA rsA u.2
          let up := rr.2.next
          let phi := up.1 * (2 * π)
          match super_theta lA mA basis max_ang_a phi inner_fuel up.2 with
          | none => none
          | some td => some (rr.1, td.1, phi, td.2)
        else
          let rr := sample_r cdfB rsB u.2
          let up := rr.2.next
          let phi := up.1 * (2 * π)
          match super_theta lB mB basis max_ang_b phi inner_fuel up.2 with
          | none => none
          | some td => some (rr.1, td.1, phi, td.2)
      match drawn with
      | none => none
      | some (r, theta, phi, g2) =>
        let r1 := interp_radial r rsA rfnA
        let r2 := interp_radial r rsB rfnB
        let y1 := spherical_harmonic_basis theta phi lA mA basis
        let y2 := spherical_harmonic_basis theta phi lB mB basis
        let proposal := super_proposal mix r1 r2 y1.1 y1.2 y2.1 y2.2
        if proposal ≤ 0 then
          super_core lA mA rsA rfnA cdfA max_ang_a lB mB rsB rfnB cdfB max_ang_b
            mix ph_re ph_im with_psi basis num_samples inner_fuel fuel g2 acc
        else
          let accept := super_accept with_psi mix r1 r2 y1.1 y1.2 y2.1 y2.2 ph_re ph_im
          let push : Bool × Rng :=
            if with_psi then (true, g2)
            else
              let ua := g2.next
              (decide (ua.1 < accept), ua.2)
          if push.1 then
            let a := Real.sqrt mix
            let b := Real.sqrt (1 - mix)
            let x := r * Real.sin theta * Real.cos phi
            let y := r * Real.sin theta * Real.sin phi
            let z := r * Real.cos theta
            let acc' := (acc.1 ++ [(x, y, z)],
              if with_psi then acc.2.1 ++ [(a * r1 * y1.1, a * r1 * y1.2)] else acc.2.1,
              if with_psi then acc.2.2 ++ [(b * r2 * y2.1, b * r2 * y2.2)] else acc.2.2)
            super_core lA mA rsA rfnA cdfA max_ang_a lB mB rsB rfnB cdfB max_ang_b
              mix ph_re ph_im with_psi basis num_samples inner_fuel fuel push.2 acc'
          else
            super_core lA mA rsA rfnA cdfA max_ang_a lB mB rsB rfnB cdfB max_ang_b
              mix ph_re ph_im with_psi basis num_samples inner_fuel fuel push.2 acc
    else some acc

/-- `generate_superposition_samples_lda` from src/bin/web.rs. -/
def generate_superposition_samples_lda (orb_a orb_b : LdaOrbital) (m_a m_b : ℤ)
    (mix time : ℝ) (num_samples : ℕ) (max_radius delta_e : ℝ) (with_psi : Bool)
    (basis : AngularBasis) (inner_fuel : ℕ) (g : Rng) :
    Option (List (ℝ × ℝ × ℝ) × List (ℝ × ℝ) × List (ℝ × ℝ)) :=
  let ph_re := Real.cos (delta_e * time)
  let ph_im := -Real.sin (delta_e * time)
  let cdf_a := build_radial_cdf orb_a.radial_r orb_a.radial_rfn max_radius RadialKind.R
  let cdf_b := build_radial_cdf orb_b.radial_r orb_b.radial_rfn max_radius RadialKind.R
  let max_ang_a := max_angular_prob orb_a.l m_a basis
  let max_ang_b := max_angular_prob orb_b.l m_b basis
  if cdf_a = [] ∨ cdf_b = [] then some ([], [], [])
  else
    super_core orb_a.l m_a orb_a.radial_r orb_a.radial_rfn cdf_a max_ang_a
      orb_b.l m_b orb_b.radial_r orb_b.radial_rfn cdf_b max_ang_b
      mix ph_re ph_im with_psi basis num_samples inner_fuel
      (num_samples * 200) g ([], [], [])

/-- `generate_superposition_samples_hydrogenic` from src/bin/web.rs. -/
def generate_superposition_samples_hydrogenic (qn_a qn_b : QuantumNumbers)
    (mix time : ℝ) (num_samples : ℕ) (max_radius delta_e : ℝ) (with_psi : Bool)
    (basis : AngularBasis) (inner_fuel : ℕ) (g : Rng) :
    Option (List (ℝ × ℝ × ℝ) × List (ℝ × ℝ) × List (ℝ × ℝ)) :=
  let ph_re := Real.cos (delta_e * time)
  let ph_im := -Real.sin (delta_e * time)
  let rs := build_radial_grid max_radius 800
  let rfn_a := rs.map (fun r => radial_wavefunction r qn_a.n qn_a.l)
  let rfn_b := rs.map (fun r => radial_wavefunction r qn_b.n qn_b.l)
  let cdf_a := build_radial_cdf rs rfn_a max_radius RadialKind.R
  let cdf_b := build_radial_cdf rs rfn_b max_radius RadialKind.R
  let max_ang_a := max_angular_prob qn_a.l qn_a.m_l basis
  let max_ang_b := max_angular_prob qn_b.l qn_b.m_l basis
  if cdf_a = [] ∨ cdf_b = [] then some ([], [], [])
  else
    super_core qn_a.l qn_a.m_l rs rfn_a cdf_a max_ang_a
      qn_b.l qn_b.m_l rs rfn_b cdf_b max_ang_b
      mix ph_re ph_im with_psi basis num_samples inner_fuel
      (num_samples * 200) g ([], [], [])

/-- The setup pass of `generate_isotropic_density_samples`
(src/bin/web.rs): collect `(grid, cdf)` samplers and the running weight
CDF, skipping orbitals with non-positive weight or an empty CDF. -/
def iso_setup (max_radius : ℝ) (kind : RadialKind) :
    List WeightedOrbital →
      List (List ℝ × List ℝ) × List ℝ × ℝ →
      List (List ℝ × List ℝ) × List ℝ × ℝ
  | [], acc => acc
  | orb :: rest, acc =>
    if orb.weight ≤ 0 then iso_setup max_radius kind rest acc
    else
      let cdf := build_radial_cdf orb.radial_r orb.radial_val max_radius kind
      if cdf = [] then iso_setup max_radius kind rest acc
      else
        iso_setup max_radius kind rest
          (acc.1 ++ [(orb.radial_r, cdf)], acc.2.1 ++ [acc.2.2 + orb.weight],
            acc.2.2 + orb.weight)

/-- The sampling loop of `generate_isotropic_density_samples`: every
iteration draws an orbital by the weight CDF, a radius by CDF inversion
and uniform sphere angles, and always pushes exactly one point. -/
def iso_loop (samplers : List (List ℝ × List ℝ)) (weight_cdf : List ℝ) :
    ℕ → Rng → List (ℝ × ℝ × ℝ) → List (ℝ × ℝ × ℝ)
  | 0, _, acc => acc
  | k + 1, g, acc =>
    let u := g.next
    let idx := search_clamp_idx weight_cdf u.1
    let pair := samplers.getD idx ([], [])
    let rr := sample_r pair.2 pair.1 u.2
    let u2 := rr.2.next
    let theta := Real.arccos (u2.1 * 2 - 1)
    let u3 := u2.2.next
    let phi := u3.1 * (2 * π)
    iso_loop samplers weight_cdf k u3.2
      (acc ++ [(rr.1 * Real.sin theta * Real.cos phi,
        rr.1 * Real.sin theta * Real.sin phi, rr.1 * Real.cos theta)])

/-- `generate_isotropic_density_samples` from src/bin/web.rs. -/
def generate_isotropic_density_samples (orbitals : List WeightedOrbital)
    (num_samples : ℕ) (max_radius : ℝ) (kind : RadialKind) (g : Rng) :
    List (ℝ × ℝ × ℝ) :=
  let setup := iso_setup max_radius kind orbitals ([], [], 0)
  if setup.1 = [] ∨ setup.2.2 ≤ 0 then []
  else
    let weight_cdf := setup.2.1.map (fun v => v / setup.2.2)
    iso_loop setup.1 weight_cdf num_samples g []

end

/-! ## Theorems -/

section Theorems

open Real

/-- The parity sign `if k % 2 == 0 { 1.0 } else { -1.0 }` equals `(−1)^k`. -/
lemma parity_sign_eq_pow (k : ℕ) :
    (if k % 2 = 0 then (1 : ℝ) else -1) = (-1) ^ k := by
  rcases Nat.even_or_odd k with h | h
  · rw [if_pos (Nat.even_iff.mp h), h.neg_one_pow]
  · have hk := Nat.odd_iff.mp h
    rw [if_neg (by omega), h.neg_one_pow]

/-- Claim C1 counterexample: the claimed iff fails because the source
computes `m_l.abs() > l as i32`, where `l as i32` truncates the `u32`.
At `n = 2^31 + 1`, `l = 2^31`, `m = 0` the triple satisfies
`n ≥ 1 ∧ l ≤ n−1 ∧ |m| ≤ l`, yet the cast makes `l as i32 = -2^31`, so
`0 > -2^31` holds and the code returns `None` where the claim demands a
present value. -/
theorem c1_quantum_numbers_new_counterexample :
    QuantumNumbers.new (2 ^ 31 + 1) (2 ^ 31) 0 = none ∧
    1 ≤ 2 ^ 31 + 1 ∧ (2 ^ 31 : ℕ) ≤ (2 ^ 31 + 1) - 1 ∧
    |(0 : ℤ)| ≤ ((2 ^ 31 : ℕ) : ℤ) := by
  refine ⟨?_, by norm_num, by norm_num, by norm_num⟩
  have hcast : u32_as_i32 (2 ^ 31) = -(2 ^ 31) := by
    rw [u32_as_i32, if_neg (by norm_num)]
    norm_num
  have habs : i32_wrapping_abs 0 = 0 := by
    rw [i32_wrapping_abs, if_neg (by norm_num)]
    norm_num
  rw [QuantumNumbers.new, if_pos]
  rw [hcast, habs]
  right
  right
  norm_num

/-- Claim C1, amended: for `l < 2^31` (so the `u32 → i32` cast of `l` is
value-preserving) and `m ≠ -2^31` (so `i32::abs` does not wrap),
`QuantumNumbers::new(n, l, m)` returns a present value iff
`n ≥ 1 ∧ 0 ≤ l ≤ n−1 ∧ |m| ≤ l`; `(2,1,2)` and `(0,0,0)` fail while
`(2,1,1)` succeeds; and a constructed value holds exactly the validated
numbers (the struct is a plain immutable value in the embedding).
Outside that range the cast truncation rejects every `l ≥ 2^31`, and
`m = i32::MIN` wrap-accepts in release builds (panics in debug). -/
theorem c1_quantum_numbers_new_amended (n l : ℕ) (m : ℤ)
    (hl : l < 2 ^ 31) (hm : m ≠ -(2 ^ 31)) :
    ((QuantumNumbers.new n l m).isSome ↔ (1 ≤ n ∧ l ≤ n - 1 ∧ |m| ≤ (l : ℤ))) ∧
    QuantumNumbers.new 2 1 2 = none ∧
    QuantumNumbers.new 0 0 0 = none ∧
    (QuantumNumbers.new 2 1 1).isSome = true ∧
    (∀ q : QuantumNumbers, QuantumNumbers.new n l m = some q →
      q.n = n ∧ q.l = l ∧ q.m_l = m) := by
  have hcast : u32_as_i32 l = (l : ℤ) := if_pos hl
  have habs : i32_wrapping_abs m = |m| := if_neg hm
  refine ⟨?_, ?_, ?_, ?_, ?_⟩
  · simp only [QuantumNumbers.new, hcast, habs]
    rcases em (n = 0 ∨ n ≤ l ∨ (l : ℤ) < |m|) with h | h
    · rw [if_pos h]
      simp only [Option.isSome_none, Bool.false_eq_true, false_iff]
      rw [Int.abs_eq_natAbs] at h ⊢
      push_cast at h ⊢
      omega
    · rw [if_neg h]
      simp only [Option.isSome_some, true_iff]
      rw [Int.abs_eq_natAbs] at h ⊢
      push_cast at h ⊢
      omega
  · rw [QuantumNumbers.new, if_pos]
    right
    right
    rw [show u32_as_i32 1 = 1 by rw [u32_as_i32, if_pos (by norm_num)]; norm_num,
      show i32_wrapping_abs 2 = 2 by rw [i32_wrapping_abs, if_neg (by norm_num)]; norm_num]
    norm_num
  · rw [QuantumNumbers.new, if_pos]
    left
    rfl
  · rw [QuantumNumbers.new, if_neg]
    · rfl
    rw [show u32_as_i32 1 = 1 by rw [u32_as_i32, if_pos (by norm_num)]; norm_num,
      show i32_wrapping_abs 1 = 1 by rw [i32_wrapping_abs, if_neg (by norm_num)]; norm_num]
    push_neg
    refine ⟨by norm_num, by norm_num, by norm_num⟩
  · intro q h
    simp only [QuantumNumbers.new] at h
    split at h
    · exact absurd h (by simp)
    · cases h.symm
      exact ⟨rfl, rfl, rfl⟩

/-- Witness for C1's amended theorem at `(n, l, m) = (2, 1, 1)`. -/
theorem c1_quantum_numbers_new_amended_witness :
    (1 : ℕ) < 2 ^ 31 ∧ (1 : ℤ) ≠ -(2 ^ 31) ∧
    ((QuantumNumbers.new 2 1 1).isSome ↔
      (1 ≤ 2 ∧ 1 ≤ 2 - 1 ∧ |(1 : ℤ)| ≤ ((1 : ℕ) : ℤ))) :=
  ⟨by norm_num, by norm_num,
    (c1_quantum_numbers_new_amended 2 1 1 (by norm_num) (by norm_num)).1⟩

/-- Claim C8 counterexample: the claim says `factorial(n)` returns the
mathematical `n!` for every non-negative `n`, but the `u64` accumulator
wraps modulo `2^64` starting at `n = 21` (and panics in debug builds), so
`factorial 21 ≠ 21!`. -/
theorem c8_factorial_counterexample : factorial 21 ≠ Nat.factorial 21 := by
  decide

/-- Claim C8, amended: for every `n < 21` (so the `u64` product does not
overflow) `factorial n` equals the mathematical factorial `n!`, with
`factorial 0 = 1`; for `n ≥ 21` the accumulator wraps. -/
theorem c8_factorial_amended : ∀ n, n < 21 → factorial n = Nat.factorial n := by
  decide

/-- Witness for C8's amended theorem at `n = 20`. -/
theorem c8_factorial_amended_witness :
    20 < 21 ∧ factorial 20 = Nat.factorial 20 :=
  ⟨by decide, c8_factorial_amended 20 (by decide)⟩

/-- Claim C6 counterexample: the claim asserts the standard relation
`Y_{l,−m} = (−1)^m · conj(Y_{l,m})`, but at `l = 1, m = 1, θ = π/2, φ = 0`
the code yields `Y_{1,−1} = conj(Y_{1,1})` without the `(−1)^m` factor
(the Condon–Shortley sign applied inside `associated_legendre` and the
explicit `cs` factor in `spherical_harmonic` cancel), so the claimed
relation fails. -/
theorem c6_spherical_harmonic_counterexample :
    spherical_harmonic (π / 2) 0 1 (-1) ≠
      ((-1 : ℝ) ^ (1 : ℕ) * (spherical_harmonic (π / 2) 0 1 1).1,
       (-1 : ℝ) ^ (1 : ℕ) * (-(spherical_harmonic (π / 2) 0 1 1).2)) := by
  have hleg : associated_legendre (Real.cos (π / 2)) 1 1 = -1 := by
    rw [Real.cos_pi_div_two]
    norm_num [associated_legendre, factorial_double, Real.one_rpow]
  intro h
  have h1 := congrArg Prod.fst h
  simp only [spherical_harmonic, Int.natAbs_neg, Int.natAbs_one, hleg] at h1
  norm_num [Real.cos_zero] at h1
  have f0 : factorial 0 = 1 := rfl
  have f2 : factorial 2 = 2 := rfl
  rw [f0, f2] at h1
  push_cast at h1
  have h3 : (0 : ℝ) < Real.sqrt 3 / (Real.sqrt 4 * Real.sqrt π) *
      (Real.sqrt 1 / Real.sqrt 2) := by
    apply mul_pos
    · exact div_pos (Real.sqrt_pos.mpr (by norm_num))
        (mul_pos (Real.sqrt_pos.mpr (by norm_num)) (Real.sqrt_pos.mpr Real.pi_pos))
    · exact div_pos (Real.sqrt_pos.mpr (by norm_num)) (Real.sqrt_pos.mpr (by norm_num))
  linarith

/-- Claim C6, amended: for `l ≥ 1` and `1 ≤ m ≤ l` the code satisfies
`Y_{l,−m} = conj(Y_{l,m})` (real part unchanged, imaginary part negated,
with no extra `(−1)^m` factor), and for `m ≥ 0` the result carries the
Condon–Shortley sign `(−1)^m` on the normalized
`associated_legendre · e^{imφ}` term. -/
theorem c6_spherical_harmonic_amended (l : ℕ) (m : ℤ) (theta phi : ℝ)
    (hm : 1 ≤ m) (_hml : m ≤ (l : ℤ)) :
    spherical_harmonic theta phi l (-m) =
      ((spherical_harmonic theta phi l m).1, -(spherical_harmonic theta phi l m).2) ∧
    spherical_harmonic theta phi l m =
      ((-1 : ℝ) ^ m.natAbs *
        (Real.sqrt ((2 * (l : ℝ) + 1) / (4 * π)) *
         Real.sqrt ((factorial (l - m.natAbs) : ℝ) / (factorial (l + m.natAbs) : ℝ)) *
         associated_legendre (Real.cos theta) l m.natAbs *
         Real.cos ((m.natAbs : ℝ) * phi)),
       (-1 : ℝ) ^ m.natAbs *
        (Real.sqrt ((2 * (l : ℝ) + 1) / (4 * π)) *
         Real.sqrt ((factorial (l - m.natAbs) : ℝ) / (factorial (l + m.natAbs) : ℝ)) *
         associated_legendre (Real.cos theta) l m.natAbs *
         Real.sin ((m.natAbs : ℝ) * phi))) := by
  have hm0 : (0 : ℤ) ≤ m := by omega
  have hmneg : ¬ ((0 : ℤ) ≤ -m) := by omega
  constructor
  · simp only [spherical_harmonic, Int.natAbs_neg, if_pos hm0, if_neg hmneg]
  · simp only [spherical_harmonic, if_pos hm0, parity_sign_eq_pow]

/-- Witness for C6's amended theorem at `l = 1, m = 1, θ = π/2, φ = 0`. -/
theorem c6_spherical_harmonic_amended_witness :
    (1 : ℤ) ≤ 1 ∧ (1 : ℤ) ≤ ((1 : ℕ) : ℤ) ∧
    spherical_harmonic (π / 2) 0 1 (-1) =
      ((spherical_harmonic (π / 2) 0 1 1).1, -(spherical_harmonic (π / 2) 0 1 1).2) :=
  ⟨le_refl 1, by norm_num,
    (c6_spherical_harmonic_amended 1 1 (π / 2) 0 (le_refl 1) (by norm_num)).1⟩

/-- `radial_cdf_areas` produces one area per consecutive grid interval. -/
lemma length_radial_cdf_areas (kind : RadialKind) (maxR : ℝ) :
    ∀ l : List (ℝ × ℝ), (radial_cdf_areas kind maxR l).length = l.length - 1
  | [] => by simp [radial_cdf_areas]
  | [p] => by simp [radial_cdf_areas]
  | (r0, v0) :: (r1, v1) :: rest => by
    simp only [radial_cdf_areas, List.length_cons,
      length_radial_cdf_areas kind maxR ((r1, v1) :: rest)]
    omega

/-- A trapezoid over a non-reversed interval is non-negative. -/
lemma seg_area_nonneg (kind : RadialKind) (maxR r0 v0 r1 v1 : ℝ) (h : r0 ≤ r1) :
    0 ≤ seg_area kind maxR r0 v0 r1 v1 := by
  unfold seg_area
  split
  · have h1 : 0 ≤ v0 * v0 * radial_weight kind r0 + v1 * v1 * radial_weight kind r1 := by
      cases kind <;> simp only [radial_weight, mul_one]
      · exact add_nonneg (mul_nonneg (mul_self_nonneg v0) (mul_self_nonneg r0))
          (mul_nonneg (mul_self_nonneg v1) (mul_self_nonneg r1))
      · exact add_nonneg (mul_self_nonneg v0) (mul_self_nonneg v1)
    have h2 : (0 : ℝ) ≤ r1 - r0 := by linarith
    have h3 : (0 : ℝ) ≤ 0.5 * (v0 * v0 * radial_weight kind r0 + v1 * v1 * radial_weight kind r1) :=
      mul_nonneg (by norm_num) h1
    exact mul_nonneg h3 h2
  · exact le_refl 0

/-- An ascending chain on a list transfers to the first components of its
zip with any list. -/
lemma chain'_zip_left {α : Type} (R : ℝ → ℝ → Prop) :
    ∀ (rs : List ℝ) (vs : List α), List.Chain' R rs →
      List.Chain' (fun p q : ℝ × α => R p.1 q.1) (rs.zip vs)
  | [], _, _ => by simp
  | _ :: _, [], _ => by simp
  | a :: rs', b :: vs', h => by
    rw [List.zip_cons_cons, List.chain'_cons']
    refine ⟨?_, chain'_zip_left R rs' vs' h.tail⟩
    intro y hy
    cases rs' with
    | nil => simp at hy
    | cons c rs'' =>
      cases vs' with
      | nil => simp at hy
      | cons d vs'' =>
        rw [List.zip_cons_cons] at hy
        simp only [List.head?_cons, Option.mem_def, Option.some.injEq] at hy
        rw [← hy]
        exact (List.chain'_cons.mp h).1

/-- All areas produced from an ascending pair list are non-negative. -/
lemma radial_cdf_areas_nonneg (kind : RadialKind) (maxR : ℝ) :
    ∀ l : List (ℝ × ℝ), List.Chain' (fun p q : ℝ × ℝ => p.1 ≤ q.1) l →
      ∀ a ∈ radial_cdf_areas kind maxR l, 0 ≤ a
  | [], _, a, ha => by simp [radial_cdf_areas] at ha
  | [p], _, a, ha => by simp [radial_cdf_areas] at ha
  | (r0, v0) :: (r1, v1) :: rest, h, a, ha => by
    simp only [radial_cdf_areas, List.mem_cons] at ha
    rcases ha with rfl | ha
    · exact seg_area_nonneg kind maxR r0 v0 r1 v1 (List.chain'_cons.mp h).1
    · exact radial_cdf_areas_nonneg kind maxR ((r1, v1) :: rest)
        (List.chain'_cons.mp h).2 a ha

/-- The head of a running-sums list is its seed. -/
lemma head?_scanl_add (b : ℝ) (l : List ℝ) :
    (List.scanl (· + ·) b l).head? = some b := by
  cases l <;> simp [List.scanl]

/-- The last of a running-sums list is the seed plus the total. -/
lemma getLast?_scanl_add : ∀ (l : List ℝ) (b : ℝ),
    (List.scanl (· + ·) b l).getLast? = some (b + l.sum)
  | [], b => by simp [List.scanl]
  | a :: l, b => by
    rw [show List.scanl (· + ·) b (a :: l) = b :: List.scanl (· + ·) (b + a) l from rfl]
    have h := getLast?_scanl_add l (b + a)
    have hne : List.scanl (· + ·) (b + a) l ≠ [] := by
      intro hc
      have := congrArg List.length hc
      simp [List.length_scanl] at this
    cases hsc : List.scanl (· + ·) (b + a) l with
    | nil => exact absurd hsc hne
    | cons x t =>
      rw [hsc] at h
      rw [List.getLast?_cons_cons, h, List.sum_cons]
      congr 1
      ring

/-- Running sums of non-negative increments are non-decreasing. -/
lemma chain'_scanl_add : ∀ (l : List ℝ), (∀ a ∈ l, 0 ≤ a) → ∀ b : ℝ,
    List.Chain' (· ≤ ·) (List.scanl (· + ·) b l)
  | [], _, b => by simp [List.scanl]
  | a :: l, h, b => by
    rw [show List.scanl (· + ·) b (a :: l) = b :: List.scanl (· + ·) (b + a) l from rfl]
    rw [List.chain'_cons']
    constructor
    · intro y hy
      rw [head?_scanl_add] at hy
      simp only [Option.mem_def, Option.some.injEq] at hy
      have ha : 0 ≤ a := h a (List.mem_cons_self a l)
      rw [← hy]
      linarith
    · exact chain'_scanl_add l (fun x hx => h x (List.mem_cons_of_mem a hx)) (b + a)

/-- Claim C4: on a strictly ascending grid of length ≥ 2 with aligned
values and strictly positive truncated total mass, `build_radial_cdf`
returns a list of the grid's length that is non-decreasing, starts at 0
and ends at exactly 1. -/
theorem c4_build_radial_cdf (rs vs : List ℝ) (max_radius : ℝ) (kind : RadialKind)
    (hlen2 : 2 ≤ rs.length) (hlen : rs.length = vs.length)
    (hsort : List.Chain' (· < ·) rs)
    (hpos : 0 < (radial_cdf_areas kind max_radius (rs.zip vs)).sum) :
    (build_radial_cdf rs vs max_radius kind).length = rs.length ∧
    List.Chain' (· ≤ ·) (build_radial_cdf rs vs max_radius kind) ∧
    (build_radial_cdf rs vs max_radius kind).head? = some 0 ∧
    (build_radial_cdf rs vs max_radius kind).getLast? = some 1 := by
  cases rs with
  | nil => simp at hlen2
  | cons r0 rs' =>
    simp only [build_radial_cdf]
    rw [if_pos hpos]
    have hA_nonneg : ∀ a ∈ radial_cdf_areas kind max_radius ((r0 :: rs').zip vs), 0 ≤ a := by
      apply radial_cdf_areas_nonneg
      exact chain'_zip_left _ _ _ (hsort.imp (fun a b h => le_of_lt h))
    refine ⟨?_, ?_, ?_, ?_⟩
    · rw [List.length_map, List.length_scanl, length_radial_cdf_areas, List.length_zip]
      simp only [List.length_cons] at hlen ⊢
      omega
    · refine List.chain'_map_of_chain' _ ?_ (chain'_scanl_add _ hA_nonneg 0)
      intro a b hab
      exact (div_le_div_iff_of_pos_right hpos).mpr hab
    · rw [List.head?_map, head?_scanl_add]
      simp
    · rw [List.getLast?_map, getLast?_scanl_add]
      simp only [Option.map_some', Option.some.injEq, zero_add]
      exact div_self (ne_of_gt hpos)

/-- Witness for C4 on the spec's concrete instance: grid `[0,1,2]`,
values `[0,1,0]`, `max_radius = 2`, `RadialKind::R`. -/
theorem c4_build_radial_cdf_witness :
    2 ≤ ([0, 1, 2] : List ℝ).length ∧
    ([0, 1, 2] : List ℝ).length = ([0, 1, 0] : List ℝ).length ∧
    List.Chain' (· < ·) ([0, 1, 2] : List ℝ) ∧
    0 < (radial_cdf_areas RadialKind.R 2 (([0, 1, 2] : List ℝ).zip [0, 1, 0])).sum ∧
    ((build_radial_cdf [0, 1, 2] [0, 1, 0] 2 RadialKind.R).length = ([0, 1, 2] : List ℝ).length ∧
      List.Chain' (· ≤ ·) (build_radial_cdf [0, 1, 2] [0, 1, 0] 2 RadialKind.R) ∧
      (build_radial_cdf [0, 1, 2] [0, 1, 0] 2 RadialKind.R).head? = some 0 ∧
      (build_radial_cdf [0, 1, 2] [0, 1, 0] 2 RadialKind.R).getLast? = some 1) :=
  ⟨by norm_num, by norm_num,
    by norm_num [List.chain'_cons, List.chain'_singleton],
    by norm_num [radial_cdf_areas, seg_area, radial_weight],
    c4_build_radial_cdf [0, 1, 2] [0, 1, 0] 2 RadialKind.R (by norm_num) (by norm_num)
      (by norm_num [List.chain'_cons, List.chain'_singleton])
      (by norm_num [radial_cdf_areas, seg_area, radial_weight])⟩

/-- A non-empty grid always produces a non-empty CDF (the zero-mass case
included). -/
lemma build_radial_cdf_ne_nil (rs vs : List ℝ) (max_radius : ℝ) (kind : RadialKind)
    (hne : rs ≠ []) : build_radial_cdf rs vs max_radius kind ≠ [] := by
  intro hc
  cases rs with
  | nil => exact hne rfl
  | cons x rs' =>
    simp only [build_radial_cdf] at hc
    split at hc
    · have := congrArg List.length hc
      simp [List.length_scanl] at this
    · have := congrArg List.length hc
      simp [List.length_scanl] at this

/-- Claim C3 counterexample: the claim says a zero-total tabulated input
(here: all values zero) yields an *empty* CDF, but `build_radial_cdf` on
the non-empty grid `[0,1]` with values `[0,0]` returns the unnormalized
all-zero vector `[0,0]`, which is not empty (only an empty *grid* yields
an empty CDF). -/
theorem c3_build_radial_cdf_counterexample :
    build_radial_cdf [0, 1] [0, 0] 1 RadialKind.R = [0, 0] ∧
    build_radial_cdf [0, 1] [0, 0] 1 RadialKind.R ≠ [] := by
  have h1 : build_radial_cdf [0, 1] [0, 0] 1 RadialKind.R = [0, 0] := by
    norm_num [build_radial_cdf, radial_cdf_areas, seg_area, radial_weight, List.scanl]
  exact ⟨h1, by rw [h1]; simp⟩

/-- Claim C3, amended: an *empty grid* yields an empty CDF and makes the
superposition sampler return zero samples; a non-empty grid never yields
an empty CDF — in particular a zero-total input on a non-empty grid
yields a (non-empty) unnormalized vector rather than the claimed empty
signal. -/
theorem c3_empty_cdf_amended :
    (∀ (vs : List ℝ) (max_radius : ℝ) (kind : RadialKind),
      build_radial_cdf [] vs max_radius kind = []) ∧
    (∀ (orb_a orb_b : LdaOrbital) (m_a m_b : ℤ) (mix time : ℝ) (num_samples : ℕ)
        (max_radius delta_e : ℝ) (with_psi : Bool) (basis : AngularBasis)
        (inner_fuel : ℕ) (g : Rng), orb_a.radial_r = [] →
      generate_superposition_samples_lda orb_a orb_b m_a m_b mix time num_samples
        max_radius delta_e with_psi basis inner_fuel g = some ([], [], [])) ∧
    (∀ (rs vs : List ℝ) (max_radius : ℝ) (kind : RadialKind), rs ≠ [] →
      build_radial_cdf rs vs max_radius kind ≠ []) := by
  refine ⟨fun _ _ _ => rfl, ?_, ?_⟩
  · intro orb_a orb_b m_a m_b mix time num_samples max_radius delta_e with_psi
      basis inner_fuel g h
    simp only [generate_superposition_samples_lda, h, build_radial_cdf]
    simp
  · exact build_radial_cdf_ne_nil

/-- Witness for C3's amended theorem: an empty-grid orbital makes the LDA
superposition sampler return zero samples, while a non-empty grid gives a
non-empty CDF. -/
theorem c3_empty_cdf_amended_witness :
    build_radial_cdf [] [] 1 RadialKind.R = [] ∧
    generate_superposition_samples_lda ⟨[], [], 0⟩ ⟨[0, 1], [1, 1], 0⟩ 0 0 (1 / 2) 0 5 1 0
      false AngularBasis.Complex 1 ⟨fun _ => 1 / 2, 0⟩ = some ([], [], []) ∧
    build_radial_cdf [0, 1] [1, 1] 1 RadialKind.R ≠ [] :=
  ⟨c3_empty_cdf_amended.1 [] 1 RadialKind.R,
   c3_empty_cdf_amended.2.1 ⟨[], [], 0⟩ ⟨[0, 1], [1, 1], 0⟩ 0 0 (1 / 2) 0 5 1 0
     false AngularBasis.Complex 1 ⟨fun _ => 1 / 2, 0⟩ rfl,
   c3_empty_cdf_amended.2.2 [0, 1] [1, 1] 1 RadialKind.R (by simp)⟩

/-- On a strictly sorted list, the number of elements strictly below `r`
is `i + 1` whenever `r` lies strictly between elements `i` and `i + 1`. -/
lemma countP_lt_of_sorted (rs : List ℝ) (r : ℝ) (i : ℕ)
    (hsort : List.Pairwise (· < ·) rs) (hi : i + 1 < rs.length)
    (hlow : rs.getD i 0 < r) (hhigh : r < rs.getD (i + 1) 0) :
    rs.countP (fun v => decide (v < r)) = i + 1 := by
  have hpg := List.pairwise_iff_getElem.mp hsort
  have hmono : ∀ a b : ℕ, a < b → b < rs.length → rs.getD a 0 < rs.getD b 0 := by
    intro a b hab hb
    rw [List.getD_eq_getElem rs 0 (lt_trans hab hb), List.getD_eq_getElem rs 0 hb]
    exact hpg a b (lt_trans hab hb) hb hab
  have h1 : (rs.take (i + 1)).countP (fun v => decide (v < r)) =
      (rs.take (i + 1)).length := by
    apply List.countP_eq_length.mpr
    intro a ha
    obtain ⟨j, hj, hja⟩ := List.mem_iff_getElem.mp ha
    have hjlt : j < i + 1 := by
      rw [List.length_take] at hj
      omega
    have hjr : j < rs.length := by omega
    have hget : (rs.take (i + 1))[j] = rs.getD j 0 := by
      rw [List.getD_eq_getElem rs 0 hjr]
      exact List.getElem_take rs
    rw [hget] at hja
    simp only [decide_eq_true_eq]
    rw [← hja]
    rcases Nat.lt_or_ge j i with hji | hji
    · exact lt_trans (hmono j i hji (by omega)) hlow
    · have hji' : j = i := by omega
      rw [hji']
      exact hlow
  have h2 : (rs.drop (i + 1)).countP (fun v => decide (v < r)) = 0 := by
    rw [List.countP_eq_zero]
    intro a ha
    obtain ⟨j, hj, hja⟩ := List.mem_iff_getElem.mp ha
    have hjlen : i + 1 + j < rs.length := by
      rw [List.length_drop] at hj
      omega
    have hget : (rs.drop (i + 1))[j] = rs.getD (i + 1 + j) 0 := by
      rw [List.getD_eq_getElem rs 0 hjlen]
      exact List.getElem_drop rs
    rw [hget] at hja
    simp only [decide_eq_true_eq, not_lt]
    rw [← hja]
    rcases Nat.eq_zero_or_pos j with rfl | hjpos
    · rw [Nat.add_zero]
      exact le_of_lt hhigh
    · exact le_of_lt (lt_trans hhigh (hmono (i + 1) (i + 1 + j) (by omega) hjlen))
  have hcat : rs.countP (fun v => decide (v < r)) =
      (rs.take (i + 1)).countP (fun v => decide (v < r)) +
        (rs.drop (i + 1)).countP (fun v => decide (v < r)) := by
    rw [← List.countP_append, List.take_append_drop]
  rw [hcat, h1, h2, List.length_take]
  omega

/-- `search_clamp_idx` (the binary-search-plus-clamp pattern) returns the
upper bracketing index on a strictly sorted list. -/
lemma search_clamp_idx_of_bracket (rs : List ℝ) (r : ℝ) (i : ℕ)
    (hsort : List.Pairwise (· < ·) rs) (hi : i + 1 < rs.length)
    (hlow : rs.getD i 0 < r) (hhigh : r < rs.getD (i + 1) 0) :
    search_clamp_idx rs r = i + 1 := by
  have hcnt := countP_lt_of_sorted rs r i hsort hi hlow hhigh
  have hcond : ¬ (i + 1 < rs.length ∧ rs.getD (i + 1) 0 = r) := by
    rintro ⟨hk, heq⟩
    rw [heq] at hhigh
    exact lt_irrefl r hhigh
  simp only [search_clamp_idx, binary_search_sorted, hcnt, if_neg hcond]
  simp only [Bool.false_eq_true, if_false]
  omega

/-- Claim C7: `interp_radial` clamps to the first value at or below the
grid minimum and to the last value at or above the grid maximum, and for
`r` strictly inside a bracketing interval returns the linear
interpolation of the two bracketing values. -/
theorem c7_interp_radial (rs vs : List ℝ) (r : ℝ)
    (hrs : rs ≠ []) (hvs : vs ≠ []) (hlen : rs.length = vs.length)
    (hsort : List.Chain' (· < ·) rs) :
    (r ≤ rs.getD 0 0 → interp_radial r rs vs = vs.getD 0 0) ∧
    (rs.getD (rs.length - 1) 0 ≤ r → interp_radial r rs vs = vs.getLastD 0) ∧
    (∀ i, i + 1 < rs.length → rs.getD i 0 < r → r < rs.getD (i + 1) 0 →
      interp_radial r rs vs =
        vs.getD i 0 + (vs.getD (i + 1) 0 - vs.getD i 0) *
          ((r - rs.getD i 0) / (rs.getD (i + 1) 0 - rs.getD i 0))) := by
  have hpair := List.chain'_iff_pairwise.mp hsort
  have hpg := List.pairwise_iff_getElem.mp hpair
  have hrslen : 0 < rs.length := List.length_pos.mpr hrs
  refine ⟨?_, ?_, ?_⟩
  · intro h
    simp only [interp_radial]
    rw [if_neg (by simp [hrs, hvs]), if_pos h]
  · intro h2
    by_cases h1 : r ≤ rs.getD 0 0
    · rcases Nat.lt_or_ge 1 rs.length with hlen2 | hlen2
      · exfalso
        have h01 := hpg 0 (rs.length - 1) hrslen (by omega) (by omega)
        rw [← List.getD_eq_getElem rs 0 hrslen,
          ← List.getD_eq_getElem rs 0 (by omega : rs.length - 1 < rs.length)] at h01
        linarith
      · have hrs1 : rs.length = 1 := by omega
        have hvs1 : vs.length = 1 := by omega
        obtain ⟨v, rfl⟩ : ∃ v, vs = [v] := by
          cases vs with
          | nil => simp at hvs1
          | cons v t =>
            cases t with
            | nil => exact ⟨v, rfl⟩
            | cons w t' => simp at hvs1
        simp only [interp_radial]
        rw [if_neg (by simp [hrs]), if_pos h1]
        rfl
    · simp only [interp_radial]
      rw [if_neg (by simp [hrs, hvs]), if_neg h1, if_pos h2]
  · intro i hi hlow hhigh
    have hne1 : ¬ (r ≤ rs.getD 0 0) := by
      have h0i : rs.getD 0 0 ≤ rs.getD i 0 := by
        rcases Nat.eq_zero_or_pos i with rfl | hipos
        · exact le_refl _
        · have := hpg 0 i hrslen (by omega) hipos
          rw [← List.getD_eq_getElem rs 0 hrslen,
            ← List.getD_eq_getElem rs 0 (by omega : i < rs.length)] at this
          exact le_of_lt this
      push_neg
      linarith
    have hne2 : ¬ (rs.getD (rs.length - 1) 0 ≤ r) := by
      have hil : rs.getD (i + 1) 0 ≤ rs.getD (rs.length - 1) 0 := by
        rcases Nat.eq_or_lt_of_le (by omega : i + 1 ≤ rs.length - 1) with heq | hlt
        · rw [heq]
        · have := hpg (i + 1) (rs.length - 1) hi (by omega) hlt
          rw [← List.getD_eq_getElem rs 0 hi,
            ← List.getD_eq_getElem rs 0 (by omega : rs.length - 1 < rs.length)] at this
          exact le_of_lt this
      push_neg
      linarith
    simp only [interp_radial]
    rw [if_neg (by simp [hrs, hvs]), if_neg hne1, if_neg hne2,
      search_clamp_idx_of_bracket rs r i hpair hi hlow hhigh]
    rw [if_neg (by omega : ¬ (i + 1 = 0))]
    simp only [Nat.add_sub_cancel]
    rw [if_pos (lt_trans hlow hhigh)]

/-- Witness for C7 on the grid `[0, 2]`, values `[3, 5]`, `r = 1`. -/
theorem c7_interp_radial_witness :
    ([0, 2] : List ℝ) ≠ [] ∧ ([3, 5] : List ℝ) ≠ [] ∧
    ([0, 2] : List ℝ).length = ([3, 5] : List ℝ).length ∧
    List.Chain' (· < ·) ([0, 2] : List ℝ) ∧
    ((1 : ℝ) ≤ ([0, 2] : List ℝ).getD 0 0 →
      interp_radial 1 [0, 2] [3, 5] = ([3, 5] : List ℝ).getD 0 0) :=
  ⟨by simp, by simp, by simp, by norm_num [List.chain'_cons, List.chain'_singleton],
    (c7_interp_radial [0, 2] [3, 5] 1 (by simp) (by simp) (by simp)
      (by norm_num [List.chain'_cons, List.chain'_singleton])).1⟩

/-- Claim C2: in density mode (`with_psi = false`), for every proposal
with positive mixture density, the acceptance probability computed by the
superposition samplers equals
`min(1, |ψ_A+ψ_B|² / (2·(mix·|ψ_A₀|² + (1−mix)·|ψ_B₀|²)))`, where
`ψ_A = √mix·R_A·Y_A`, `ψ_B = √(1−mix)·R_B·Y_B·e^{−iΔE·t}` (phase as a
complex rotation), and `ψ₀` is the un-phased, un-weighted amplitude
`R·Y` (the convention §9 of the spec uses for `ψ₀`). -/
theorem c2_super_accept_density (mix r1 r2 y1re y1im y2re y2im delta_e t : ℝ)
    (hprop : 0 < super_proposal mix r1 r2 y1re y1im y2re y2im) :
    super_accept false mix r1 r2 y1re y1im y2re y2im
        (Real.cos (delta_e * t)) (-Real.sin (delta_e * t)) =
      min 1 (Complex.normSq
          (((Real.sqrt mix * r1 : ℝ) : ℂ) * ⟨y1re, y1im⟩ +
            ((Real.sqrt (1 - mix) * r2 : ℝ) : ℂ) * ⟨y2re, y2im⟩ *
              Complex.exp ((-(delta_e * t) : ℝ) * Complex.I)) /
        (2 * (mix * Complex.normSq (((r1 : ℝ) : ℂ) * ⟨y1re, y1im⟩) +
          (1 - mix) * Complex.normSq (((r2 : ℝ) : ℂ) * ⟨y2re, y2im⟩)))) := by
  have hexp : Complex.exp ((-(delta_e * t) : ℝ) * Complex.I) =
      ⟨Real.cos (delta_e * t), -Real.sin (delta_e * t)⟩ := by
    rw [Complex.exp_mul_I]
    apply Complex.ext <;>
      simp [← Complex.ofReal_mul, Complex.cos_ofReal_re, Complex.sin_ofReal_im,
        Complex.cos_ofReal_im, Complex.sin_ofReal_re, Real.cos_neg, Real.sin_neg]
  have hnum : Complex.normSq
      (((Real.sqrt mix * r1 : ℝ) : ℂ) * ⟨y1re, y1im⟩ +
        ((Real.sqrt (1 - mix) * r2 : ℝ) : ℂ) * ⟨y2re, y2im⟩ *
          Complex.exp ((-(delta_e * t) : ℝ) * Complex.I)) =
      super_prob mix r1 r2 y1re y1im y2re y2im
        (Real.cos (delta_e * t)) (-Real.sin (delta_e * t)) := by
    rw [hexp]
    simp only [super_prob, Complex.normSq_apply, Complex.add_re, Complex.add_im,
      Complex.mul_re, Complex.mul_im, Complex.ofReal_re, Complex.ofReal_im]
    ring
  have hden : mix * Complex.normSq (((r1 : ℝ) : ℂ) * ⟨y1re, y1im⟩) +
      (1 - mix) * Complex.normSq (((r2 : ℝ) : ℂ) * ⟨y2re, y2im⟩) =
      super_proposal mix r1 r2 y1re y1im y2re y2im := by
    simp only [super_proposal, Complex.normSq_apply, Complex.mul_re, Complex.mul_im,
      Complex.ofReal_re, Complex.ofReal_im]
    ring
  have hnn : 0 ≤ super_prob mix r1 r2 y1re y1im y2re y2im
      (Real.cos (delta_e * t)) (-Real.sin (delta_e * t)) := by
    simp only [super_prob]
    exact add_nonneg (mul_self_nonneg _) (mul_self_nonneg _)
  rw [hnum, hden]
  simp only [super_accept, Bool.false_eq_true, if_false, rust_clamp]
  rw [max_eq_left (div_nonneg hnn (by linarith)), min_comm]

/-- Witness for C2 at `mix = 1/2`, `r1 = r2 = 1`, `Y1 = Y2 = 1`. -/
theorem c2_super_accept_density_witness :
    0 < super_proposal (1 / 2) 1 1 1 0 1 0 ∧
    super_accept false (1 / 2) 1 1 1 0 1 0 (Real.cos (0 * 0)) (-Real.sin (0 * 0)) =
      min 1 (Complex.normSq
          (((Real.sqrt (1 / 2) * 1 : ℝ) : ℂ) * ⟨1, 0⟩ +
            ((Real.sqrt (1 - 1 / 2) * 1 : ℝ) : ℂ) * ⟨1, 0⟩ *
              Complex.exp ((-((0 : ℝ) * 0) : ℝ) * Complex.I)) /
        (2 * ((1 / 2) * Complex.normSq (((1 : ℝ) : ℂ) * ⟨1, 0⟩) +
          (1 - 1 / 2) * Complex.normSq (((1 : ℝ) : ℂ) * ⟨1, 0⟩)))) :=
  ⟨by norm_num [super_proposal],
   c2_super_accept_density (1 / 2) 1 1 1 0 1 0 0 0 (by norm_num [super_proposal])⟩

/-- Claim C9: for two hydrogenic states with equal principal quantum
number the energy gap `ΔE = E_B − E_A` is exactly 0, and with `ΔE = 0`
the superposition sampler is time-independent: on the same random stream,
any two time values produce identical outputs (positions and amplitude
pairs), and the interference density `|ψ_A+ψ_B·phase(t)|²` is the same
for any two times. -/
theorem c9_superposition_time_invariant (qn_a qn_b : QuantumNumbers)
    (h : qn_a.n = qn_b.n) :
    hydrogenic_energy qn_b.n - hydrogenic_energy qn_a.n = 0 ∧
    (∀ (mix t1 t2 : ℝ) (num_samples : ℕ) (max_radius : ℝ) (with_psi : Bool)
        (basis : AngularBasis) (inner_fuel : ℕ) (g : Rng),
      generate_superposition_samples_hydrogenic qn_a qn_b mix t1 num_samples
          max_radius (hydrogenic_energy qn_b.n - hydrogenic_energy qn_a.n)
          with_psi basis inner_fuel g =
        generate_superposition_samples_hydrogenic qn_a qn_b mix t2 num_samples
          max_radius (hydrogenic_energy qn_b.n - hydrogenic_energy qn_a.n)
          with_psi basis inner_fuel g) ∧
    (∀ (mix r1 r2 y1re y1im y2re y2im t1 t2 : ℝ),
      super_prob mix r1 r2 y1re y1im y2re y2im
          (Real.cos (0 * t1)) (-Real.sin (0 * t1)) =
        super_prob mix r1 r2 y1re y1im y2re y2im
          (Real.cos (0 * t2)) (-Real.sin (0 * t2))) := by
  have hze : hydrogenic_energy qn_b.n - hydrogenic_energy qn_a.n = 0 := by
    rw [h]
    exact sub_self _
  refine ⟨hze, ?_, ?_⟩
  · intro mix t1 t2 num_samples max_radius with_psi basis inner_fuel g
    rw [hze]
    simp only [generate_superposition_samples_hydrogenic, zero_mul]
  · intro mix r1 r2 y1re y1im y2re y2im t1 t2
    simp only [zero_mul]

/-- Witness for C9 with the spec's example pair `(2,0,0)` and `(2,1,0)`
at times `t₁ = 0`, `t₂ = 1`. -/
theorem c9_superposition_time_invariant_witness :
    (⟨2, 0, 0⟩ : QuantumNumbers).n = (⟨2, 1, 0⟩ : QuantumNumbers).n ∧
    generate_superposition_samples_hydrogenic ⟨2, 0, 0⟩ ⟨2, 1, 0⟩ (1 / 2) 0 4 10
        (hydrogenic_energy 2 - hydrogenic_energy 2) false AngularBasis.Complex 8
        ⟨fun _ => 1 / 2, 0⟩ =
      generate_superposition_samples_hydrogenic ⟨2, 0, 0⟩ ⟨2, 1, 0⟩ (1 / 2) 1 4 10
        (hydrogenic_energy 2 - hydrogenic_energy 2) false AngularBasis.Complex 8
        ⟨fun _ => 1 / 2, 0⟩ :=
  ⟨rfl, (c9_superposition_time_invariant ⟨2, 0, 0⟩ ⟨2, 1, 0⟩ rfl).2.1
    (1 / 2) 0 1 4 10 false AngularBasis.Complex 8 ⟨fun _ => 1 / 2, 0⟩⟩

/-- The rejection loop never performs more attempts than its budget. -/
lemma orbital_loop_attempts_le (qn : QuantumNumbers) (maxR maxP : ℝ) (N : ℕ) :
    ∀ (fuel : ℕ) (g : Rng) (acc : List (ℝ × ℝ × ℝ)),
      (generate_orbital_samples_loop qn maxR maxP N fuel g acc).2 ≤ fuel
  | 0, g, acc => by simp [generate_orbital_samples_loop]
  | fuel + 1, g, acc => by
    simp only [generate_orbital_samples_loop]
    split
    · split
      · exact Nat.succ_le_succ (orbital_loop_attempts_le qn maxR maxP N fuel _ _)
      · exact Nat.succ_le_succ (orbital_loop_attempts_le qn maxR maxP N fuel _ _)
    · simp

/-- The rejection loop never collects more samples than requested. -/
lemma orbital_loop_length_le (qn : QuantumNumbers) (maxR maxP : ℝ) (N : ℕ) :
    ∀ (fuel : ℕ) (g : Rng) (acc : List (ℝ × ℝ × ℝ)), acc.length ≤ N →
      (generate_orbital_samples_loop qn maxR maxP N fuel g acc).1.length ≤ N
  | 0, g, acc, h => by simpa [generate_orbital_samples_loop] using h
  | fuel + 1, g, acc, h => by
    simp only [generate_orbital_samples_loop]
    split
    · split
      · apply orbital_loop_length_le qn maxR maxP N fuel
        rw [List.length_append]
        simp only [List.length_singleton]
        omega
      · exact orbital_loop_length_le qn maxR maxP N fuel _ _ h
    · simpa using h

/-- If the loop returns fewer samples than requested, it used its entire
attempt budget. -/
lemma orbital_loop_short_exhausts (qn : QuantumNumbers) (maxR maxP : ℝ) (N : ℕ) :
    ∀ (fuel : ℕ) (g : Rng) (acc : List (ℝ × ℝ × ℝ)),
      (generate_orbital_samples_loop qn maxR maxP N fuel g acc).1.length < N →
      (generate_orbital_samples_loop qn maxR maxP N fuel g acc).2 = fuel
  | 0, g, acc, _ => by simp [generate_orbital_samples_loop]
  | fuel + 1, g, acc, h => by
    simp only [generate_orbital_samples_loop] at h ⊢
    split_ifs at h ⊢ with h1 h2
    · dsimp only [] at h ⊢
      rw [orbital_loop_short_exhausts qn maxR maxP N fuel _ _ h]
    · dsimp only [] at h ⊢
      rw [orbital_loop_short_exhausts qn maxR maxP N fuel _ _ h]
    · dsimp only [] at h
      exact absurd h h1

/-- Every sample the loop collects lies inside the ball of radius
`max_radius`, provided the random stream stays in `[0, 1]`. -/
lemma orbital_loop_ball (qn : QuantumNumbers) (maxR maxP : ℝ) (N : ℕ)
    (hmr : 0 ≤ maxR) :
    ∀ (fuel : ℕ) (g : Rng) (acc : List (ℝ × ℝ × ℝ)),
      (∀ i, 0 ≤ g.stream i ∧ g.stream i ≤ 1) →
      (∀ p ∈ acc, p.1 ^ 2 + p.2.1 ^ 2 + p.2.2 ^ 2 ≤ maxR ^ 2) →
      ∀ p ∈ (generate_orbital_samples_loop qn maxR maxP N fuel g acc).1,
        p.1 ^ 2 + p.2.1 ^ 2 + p.2.2 ^ 2 ≤ maxR ^ 2
  | 0, g, acc, _, hacc => by simpa [generate_orbital_samples_loop] using hacc
  | fuel + 1, g, acc, hg, hacc => by
    simp only [generate_orbital_samples_loop]
    split
    · split
      · dsimp only []
        apply orbital_loop_ball qn maxR maxP N hmr fuel
          g.next.2.next.2.next.2.next.2 _ hg
        intro p hp
        rcases List.mem_append.mp hp with hold | hnew
        · exact hacc p hold
        · rcases List.mem_singleton.mp hnew with rfl
          simp only [Rng.next]
          set u : ℝ := g.stream g.pos with hu
          set r : ℝ := maxR * u ^ ((1 : ℝ) / 3) with hrdef
          have hu0 : 0 ≤ u := (hg g.pos).1
          have hu1 : u ≤ 1 := (hg g.pos).2
          have hc0 : 0 ≤ u ^ ((1 : ℝ) / 3) := Real.rpow_nonneg hu0 _
          have hc1 : u ^ ((1 : ℝ) / 3) ≤ 1 := Real.rpow_le_one hu0 hu1 (by norm_num)
          have hr0 : 0 ≤ r := mul_nonneg hmr hc0
          have hrle : r ≤ maxR := by
            calc r = maxR * u ^ ((1 : ℝ) / 3) := hrdef
              _ ≤ maxR * 1 := by
                apply mul_le_mul_of_nonneg_left hc1 hmr
              _ = maxR := mul_one maxR
          set theta : ℝ := Real.arccos (g.stream (g.pos + 1) * 2 - 1)
          set phi : ℝ := g.stream (g.pos + 2) * (2 * π)
          have hxyz : (r * Real.sin theta * Real.cos phi) ^ 2 +
              (r * Real.sin theta * Real.sin phi) ^ 2 +
              (r * Real.cos theta) ^ 2 = r ^ 2 := by
            have hs1 := Real.sin_sq_add_cos_sq theta
            have hs2 := Real.sin_sq_add_cos_sq phi
            linear_combination (r ^ 2 * Real.sin theta ^ 2) * hs2 + r ^ 2 * hs1
          rw [hxyz]
          exact pow_le_pow_left₀ hr0 hrle 2
      · exact orbital_loop_ball qn maxR maxP N hmr fuel
          g.next.2.next.2.next.2.next.2 _ hg hacc
    · simpa using hacc

/-- Claim C5: `generate_orbital_samples` performs at most
`num_samples·100` proposal attempts, returns at most `num_samples`
points, returns fewer only when the attempt budget was fully used, and
every returned Cartesian point satisfies `x² + y² + z² ≤ max_radius²`
(given draws in `[0, 1]` and `max_radius > 0`). -/
theorem c5_generate_orbital_samples (qn : QuantumNumbers) (num_samples : ℕ)
    (max_radius : ℝ) (g : Rng) (hr : 0 < max_radius)
    (hs : ∀ i, 0 ≤ g.stream i ∧ g.stream i ≤ 1) :
    (generate_orbital_samples qn num_samples max_radius g).2 ≤ num_samples * 100 ∧
    (generate_orbital_samples qn num_samples max_radius g).1.length ≤ num_samples ∧
    ((generate_orbital_samples qn num_samples max_radius g).1.length < num_samples →
      (generate_orbital_samples qn num_samples max_radius g).2 = num_samples * 100) ∧
    (∀ p ∈ (generate_orbital_samples qn num_samples max_radius g).1,
      p.1 ^ 2 + p.2.1 ^ 2 + p.2.2 ^ 2 ≤ max_radius ^ 2) := by
  refine ⟨?_, ?_, ?_, ?_⟩
  · exact orbital_loop_attempts_le qn max_radius _ num_samples (num_samples * 100) g []
  · exact orbital_loop_length_le qn max_radius _ num_samples (num_samples * 100) g []
      (by simp)
  · exact orbital_loop_short_exhausts qn max_radius _ num_samples (num_samples * 100) g []
  · exact orbital_loop_ball qn max_radius _ num_samples (le_of_lt hr)
      (num_samples * 100) g [] hs (by simp)

/-- Witness for C5 at `(n,l,m) = (1,0,0)`, `num_samples = 0`,
`max_radius = 20`, constant stream `1/2`. -/
theorem c5_generate_orbital_samples_witness :
    (0 : ℝ) < 20 ∧ (∀ i : ℕ, 0 ≤ ((fun _ : ℕ => (1 : ℝ) / 2) i) ∧
      ((fun _ : ℕ => (1 : ℝ) / 2) i) ≤ 1) ∧
    (generate_orbital_samples ⟨1, 0, 0⟩ 0 20 ⟨fun _ => 1 / 2, 0⟩).1.length ≤ 0 :=
  ⟨by norm_num, fun i => ⟨by norm_num, by norm_num⟩,
    (c5_generate_orbital_samples ⟨1, 0, 0⟩ 0 20 ⟨fun _ => 1 / 2, 0⟩ (by norm_num)
      (fun i => ⟨by norm_num, by norm_num⟩)).2.1⟩

/-- Every iteration of the isotropic sampling loop pushes exactly one
point. -/
lemma iso_loop_length (samplers : List (List ℝ × List ℝ)) (weight_cdf : List ℝ) :
    ∀ (k : ℕ) (g : Rng) (acc : List (ℝ × ℝ × ℝ)),
      (iso_loop samplers weight_cdf k g acc).length = acc.length + k
  | 0, g, acc => by simp [iso_loop]
  | k + 1, g, acc => by
    rw [iso_loop, iso_loop_length samplers weight_cdf k _ _, List.length_append]
    simp only [List.length_singleton]
    omega

/-- If some orbital qualifies (positive weight, non-empty grid) — or the
accumulator already carries a sampler and positive total — the setup pass
ends with a non-empty sampler list and strictly positive total weight. -/
lemma iso_setup_spec (max_radius : ℝ) (kind : RadialKind) :
    ∀ (orbs : List WeightedOrbital) (acc : List (List ℝ × List ℝ) × List ℝ × ℝ),
      0 ≤ acc.2.2 →
      ((∃ orb ∈ orbs, 0 < orb.weight ∧ orb.radial_r ≠ []) ∨
        (acc.1 ≠ [] ∧ 0 < acc.2.2)) →
      (iso_setup max_radius kind orbs acc).1 ≠ [] ∧
        0 < (iso_setup max_radius kind orbs acc).2.2
  | [], acc, _, hyp => by
    rw [iso_setup]
    rcases hyp with ⟨orb, hmem, _⟩ | h2
    · simp at hmem
    · exact h2
  | orb :: rest, acc, hnn, hyp => by
    simp only [iso_setup]
    split
    case isTrue hw =>
      apply iso_setup_spec max_radius kind rest acc hnn
      rcases hyp with ⟨o, hmem, ho⟩ | h2
      · rcases List.mem_cons.mp hmem with rfl | hmem'
        · exact absurd ho.1 (by linarith)
        · exact Or.inl ⟨o, hmem', ho⟩
      · exact Or.inr h2
    case isFalse hw =>
      split
      case isTrue hcdf =>
        apply iso_setup_spec max_radius kind rest acc hnn
        rcases hyp with ⟨o, hmem, ho⟩ | h2
        · rcases List.mem_cons.mp hmem with rfl | hmem'
          · exact absurd hcdf (build_radial_cdf_ne_nil _ _ _ _ ho.2)
          · exact Or.inl ⟨o, hmem', ho⟩
        · exact Or.inr h2
      case isFalse hcdf =>
        apply iso_setup_spec max_radius kind rest _ ?_ ?_
        · dsimp only []
          have : 0 < orb.weight := by linarith [not_le.mp hw]
          linarith
        · refine Or.inr ⟨by simp, ?_⟩
          dsimp only []
          have : 0 < orb.weight := not_le.mp hw
          linarith

/-- If no orbital qualifies, the setup pass leaves the accumulator
untouched. -/
lemma iso_setup_none (max_radius : ℝ) (kind : RadialKind) :
    ∀ (orbs : List WeightedOrbital) (acc : List (List ℝ × List ℝ) × List ℝ × ℝ),
      (∀ orb ∈ orbs, orb.weight ≤ 0 ∨ orb.radial_r = []) →
      iso_setup max_radius kind orbs acc = acc
  | [], acc, _ => by rw [iso_setup]
  | orb :: rest, acc, h => by
    simp only [iso_setup]
    have hrest : ∀ o ∈ rest, o.weight ≤ 0 ∨ o.radial_r = [] :=
      fun o ho => h o (List.mem_cons_of_mem orb ho)
    have horb := h orb (List.mem_cons_self orb rest)
    split
    case isTrue hw => exact iso_setup_none max_radius kind rest acc hrest
    case isFalse hw =>
      rcases horb with hweight | hgrid
      · exact absurd hweight hw
      · split
        case isTrue hcdf => exact iso_setup_none max_radius kind rest acc hrest
        case isFalse hcdf =>
          exfalso
          apply hcdf
          rw [hgrid]
          rfl

/-- Claim C10: `generate_isotropic_density_samples` returns exactly
`num_samples` points whenever at least one input orbital has positive
weight and a non-empty radial grid (the loop has no rejection and no
attempt budget), and returns the empty vector when no orbital
qualifies. -/
theorem c10_generate_isotropic_density_samples (orbitals : List WeightedOrbital)
    (num_samples : ℕ) (max_radius : ℝ) (kind : RadialKind) (g : Rng) :
    ((∃ orb ∈ orbitals, 0 < orb.weight ∧ orb.radial_r ≠ []) →
      (generate_isotropic_density_samples orbitals num_samples max_radius kind g).length =
        num_samples) ∧
    ((∀ orb ∈ orbitals, orb.weight ≤ 0 ∨ orb.radial_r = []) →
      generate_isotropic_density_samples orbitals num_samples max_radius kind g = []) := by
  constructor
  · intro hex
    have hsp := iso_setup_spec max_radius kind orbitals ([], [], 0) (le_refl 0) (Or.inl hex)
    simp only [generate_isotropic_density_samples]
    rw [if_neg (by push_neg; exact ⟨hsp.1, hsp.2⟩)]
    rw [iso_loop_length]
    simp
  · intro hall
    have hsn := iso_setup_none max_radius kind orbitals ([], [], 0) hall
    simp only [generate_isotropic_density_samples, hsn]
    simp

/-- Witness for C10: one orbital of weight 1 on grid `[0, 1]` yields
exactly 3 samples for `num_samples = 3`. -/
theorem c10_generate_isotropic_density_samples_witness :
    (∃ orb ∈ [({ radial_r := [0, 1], radial_val := [1, 1], weight := 1 } : WeightedOrbital)],
      0 < orb.weight ∧ orb.radial_r ≠ []) ∧
    (generate_isotropic_density_samples
      [{ radial_r := [0, 1], radial_val := [1, 1], weight := 1 }]
      3 2 RadialKind.R ⟨fun _ => 1 / 2, 0⟩).length = 3 := by
  have hex : ∃ orb ∈ [({ radial_r := [0, 1], radial_val := [1, 1], weight := 1 } :
      WeightedOrbital)], 0 < orb.weight ∧ orb.radial_r ≠ [] :=
    ⟨{ radial_r := [0, 1], radial_val := [1, 1], weight := 1 },
      List.mem_singleton.mpr rfl, by norm_num, by simp⟩
  exact ⟨hex, (c10_generate_isotropic_density_samples
    [{ radial_r := [0, 1], radial_val := [1, 1], weight := 1 }]
    3 2 RadialKind.R ⟨fun _ => 1 / 2, 0⟩).1 hex⟩

end Theorems

end Atoms
